import Mathlib

/-!
Verification of the replication-agent core of the `agentic-peer-review`
repository: a shallow embedding of `src/lib/eval/agent.ts` (the iterative
generate → execute → judge orchestrator) and `src/lib/eval/run-in-e2b.ts`
(the sandboxed executor), together with theorems about the embedded code.

Modelling conventions:
* JavaScript strings are modelled as Lean `String`; `s.length` and
  `s.slice(0, n)` are modelled over the character list (`strLen`, `strTake`).
* `undefined`/optional values are `Option`; JavaScript string truthiness
  (`x || y`, `if (!x)`) is modelled by explicit emptiness tests
  (`jsOr`, `jsOrString`).
* The external collaborators (OpenAI calls, the e2b sandbox runtime) are
  nondeterministic; their per-call responses are supplied as oracle
  functions, indexed by the iteration number for call-sequence
  nondeterminism.  Everything after the network response — extraction,
  parsing, validation, control flow — is translated from the source.
-/

/-- JavaScript `s.length` (character count of the string). -/
def strLen (s : String) : Nat := s.data.length

/-- JavaScript `s.slice(0, n)` (first `n` characters). -/
def strTake (s : String) (n : Nat) : String := String.mk (s.data.take n)

/-- JavaScript `a || b` on strings: `b` when `a` is empty (falsy), else `a`. -/
def jsOr (a b : String) : String := if a = "" then b else a

/-- JavaScript `a || b` where `a : string | undefined`. -/
def jsOrString (a : Option String) (b : String) : String :=
  match a with
  | some s => if s = "" then b else s
  | none => b

/-- JavaScript `Array.prototype.join(sep)`. -/
def joinSep (sep : String) : List String → String
  | [] => ""
  | [x] => x
  | x :: y :: xs => x ++ sep ++ joinSep sep (y :: xs)

/-- Substring relation: `needle` occurs contiguously inside `hay`. -/
def strContains (hay needle : String) : Prop :=
  ∃ a b, hay.data = a ++ needle.data ++ b

/-- JavaScript `s.trim()`: strip whitespace from both ends. -/
def jsTrim (s : String) : String :=
  String.mk (((s.data.dropWhile Char.isWhitespace).reverse.dropWhile
    Char.isWhitespace).reverse)

/-- Does the first character list lead (start) the second? -/
def charsLead : List Char → List Char → Bool
  | [], _ => true
  | _ :: _, [] => false
  | a :: as, b :: bs => a = b && charsLead as bs

/-- JavaScript `s.startsWith(p)`. -/
def strStarts (s p : String) : Bool := charsLead p.data s.data

/-- JavaScript `s.endsWith(p)`. -/
def strEnds (s p : String) : Bool := charsLead p.data.reverse s.data.reverse

/-- JavaScript `s.toLowerCase()` (ASCII-adequate model). -/
def strLower (s : String) : String := String.mk (s.data.map Char.toLower)

/-! ### Character-budget constants (agent.ts lines 36–39) -/

def MAX_PAPER_CHARS : Nat := 60000
def MAX_OUTPUT_CHARS_FOR_JUDGE : Nat := 20000
def MAX_CONTEXT_CHARS_FOR_JUDGE : Nat := 30000
def MAX_LOG_CHARS : Nat := 4000

/-- agent.ts `toLogSnippet` (lines 41–44): keep the first `maxChars`
characters and append a marker counting the omitted characters. -/
def toLogSnippet (value : String) (maxChars : Nat := MAX_LOG_CHARS) : String :=
  if strLen value ≤ maxChars then value
  else strTake value maxChars ++ "\n...[truncated " ++
    Nat.repr (strLen value - maxChars) ++ " chars]"

/-- agent.ts `truncateText` (lines 46–49): identical body to `toLogSnippet`
but with a mandatory budget argument. -/
def truncateText (value : String) (maxChars : Nat) : String :=
  if strLen value ≤ maxChars then value
  else strTake value maxChars ++ "\n...[truncated " ++
    Nat.repr (strLen value - maxChars) ++ " chars]"

/-- agent.ts `buildUserPrompt` paper snippet (lines 94–98): the paper text is
cut to `MAX_PAPER_CHARS` characters with a marker that carries no count. -/
def paperSnippetForPrompt (paperText : String) : String :=
  if strLen paperText > MAX_PAPER_CHARS then
    strTake paperText MAX_PAPER_CHARS ++ "\n...[truncated]"
  else paperText

/-! ### Data model (agent.ts lines 3–34, run-in-e2b.ts lines 6–8) -/

/-- agent.ts `CodeSuggestion`. -/
structure CodeSuggestion where
  code : String
  language : Option String
  explanation : Option String
deriving DecidableEq, Repr

/-- run-in-e2b.ts `RunInE2bResult`: tagged union of success output and
failure error. -/
inductive RunInE2bResult where
  | success (output : String)
  | failure (error : String)
deriving DecidableEq, Repr

def RunInE2bResult.isSuccess : RunInE2bResult → Bool
  | .success _ => true
  | .failure _ => false

/-- agent.ts `OutputAssessment`. -/
structure OutputAssessment where
  sufficient : Bool
  missing : List String
  rationale : String
  requested_changes : List String
deriving DecidableEq, Repr

/-- agent.ts `EvalAgentStep`. -/
structure EvalAgentStep where
  iteration : Nat
  suggestion : CodeSuggestion
  runResult : RunInE2bResult
  outputAssessment : Option OutputAssessment
deriving DecidableEq, Repr

/-- agent.ts `EvalAgentResult`. -/
inductive EvalAgentResult where
  | success (steps : List EvalAgentStep) (finalOutput : String)
      (finalAssessment : Option OutputAssessment)
  | failure (steps : List EvalAgentStep) (lastError : String)
deriving DecidableEq, Repr

/-- The step history carried by either variant of `EvalAgentResult`. -/
def EvalAgentResult.steps : EvalAgentResult → List EvalAgentStep
  | .success st _ _ => st
  | .failure st _ => st

/-! ### Sandboxed executor: run-in-e2b.ts -/

/-- The structured runtime error reported by the e2b sandbox
(`execution.error`: name, value, optional traceback). -/
structure E2bError where
  name : String
  value : String
  traceback : Option String
deriving DecidableEq, Repr

/-- What the sandbox runtime hands back when `runCode` returns:
optional primary text result plus stdout/stderr log fragments, or a
structured error. -/
structure E2bExecution where
  error : Option E2bError
  text : Option String
  stdout : List String
  stderr : List String
deriving DecidableEq, Repr

/-- Nondeterministic behaviour of one sandbox provisioning + execution:
either the whole `try` block throws (provisioning failure, timeout, …)
with an error message, or execution completes with an `E2bExecution`. -/
inductive E2bBehavior where
  | throwErr (message : String)
  | completes (ex : E2bExecution)
deriving DecidableEq, Repr

/-- run-in-e2b.ts language normalization (lines 28–33). -/
def normalizeLanguage (language : Option String) : String :=
  let raw := strLower (jsOrString language "python")
  if strStarts raw "py" then "python" else raw

/-- The configuration-level error message for a missing sandbox credential
(run-in-e2b.ts line 24). -/
def e2bConfigError : String :=
  "E2B_API_KEY is required in .env.local to run code in the sandbox."

/-- run-in-e2b.ts lines 68–70: `join("")` each log stream, trim it, drop
empty parts and join the rest with a blank line. -/
def e2bCombinedLogs (ex : E2bExecution) : String :=
  joinSep "\n\n"
    ([jsTrim (joinSep "" ex.stdout), jsTrim (joinSep "" ex.stderr)].filter
      (fun s => s ≠ ""))

/-- run-in-e2b.ts success-path fallback (lines 63–72): prefer the trimmed
primary text result; otherwise the combined logs; if those are empty too,
a canonical placeholder. -/
def e2bSuccessOutput (ex : E2bExecution) : String :=
  if jsTrim (ex.text.getD "") ≠ "" then jsTrim (ex.text.getD "")
  else if e2bCombinedLogs ex ≠ "" then e2bCombinedLogs ex
  else "Execution finished with no output."

/-- run-in-e2b.ts `runInE2b` (lines 10–89).  `apiKey` is
`process.env.E2B_API_KEY` (absent or empty is falsy); `behavior` is the
sandbox runtime's response for this call. -/
def runInE2b (apiKey : Option String) (behavior : E2bBehavior)
    (code : String) (language : Option String) : RunInE2bResult :=
  if (jsOrString apiKey "") = "" then
    .failure e2bConfigError
  else
    match behavior with
    | .throwErr message =>
      .failure ("Failed to run code in e2b sandbox: " ++ message)
    | .completes ex =>
      match ex.error with
      | some err =>
        .failure ("Sandbox execution error (" ++ err.name ++ "): " ++ err.value ++
          (match err.traceback with
           | some t => if t = "" then "" else "\n" ++ t
           | none => ""))
      | none => .success (e2bSuccessOutput ex)

deriving instance DecidableEq for Except

/-! ### Replication loop (orchestrator): agent.ts `runEvalAgent` -/

/-- The argument record of `getCodeSuggestion` (agent.ts lines 196–204). -/
structure GenParams where
  task : String
  paperText : Option String
  methodText : Option String
  previousSuggestion : Option CodeSuggestion
  lastError : Option String
  iteration : Nat
  model : Option String
deriving DecidableEq, Repr

/-- The argument record of `assessOutputSufficiency` (agent.ts lines
316–322).  The orchestrator's call site (lines 512–517) does not pass
`model`, so there it is `none`. -/
structure AssessParams where
  task : String
  paperText : Option String
  methodText : Option String
  stdout : String
  model : Option String
deriving DecidableEq, Repr

/-- The parameters of `runEvalAgent` (agent.ts lines 437–454), defaults
included. -/
structure RunParams where
  task : String
  paperText : Option String := none
  methodText : Option String := none
  maxIterations : Nat := 5
  defaultLanguage : String := "python3"
  model : Option String := none
  requireSufficientOutput : Bool := true
deriving DecidableEq, Repr

/-- Oracles standing for the three outward calls of one run.  `getCodeS`
and `assessS` may throw (`Except.error`), mirroring `getCodeSuggestion`
and `assessOutputSufficiency`; `execS` never throws, mirroring `runInE2b`
(which catches every exception).  `execS` and `assessS` additionally see
the iteration index so that distinct calls may behave differently. -/
structure Oracles where
  getCodeS : GenParams → Except String CodeSuggestion
  execS : Nat → String → String → RunInE2bResult
  assessS : Nat → AssessParams → Except String OutputAssessment

/-- The loop locals of `runEvalAgent` (agent.ts lines 466–470). -/
structure LoopState where
  iteration : Nat
  steps : List EvalAgentStep
  previousSuggestion : Option CodeSuggestion
  lastError : Option String
deriving DecidableEq, Repr

/-- What one pass of the loop body does: continue with an updated state,
return a terminal result, or propagate an uncaught exception. -/
inductive StepOutcome where
  | nextIter (s : LoopState)
  | done (r : EvalAgentResult)
  | fatal (e : String)
deriving DecidableEq, Repr

/-- The `getCodeSuggestion` argument record built at agent.ts
lines 477–485. -/
def genParamsOf (p : RunParams) (s : LoopState) : GenParams :=
  { task := p.task
    paperText := p.paperText
    methodText := p.methodText
    previousSuggestion := s.previousSuggestion
    lastError := s.lastError
    iteration := s.iteration
    model := p.model }

/-- The `assessOutputSufficiency` argument record built at agent.ts
lines 512–517: note that `model` is not forwarded. -/
def assessParamsOf (p : RunParams) (output : String) : AssessParams :=
  { task := p.task
    paperText := p.paperText
    methodText := p.methodText
    stdout := output
    model := none }

/-- The composite `lastError` synthesised after an insufficient verdict
(agent.ts lines 532–538). -/
def insufficiencyError (a : OutputAssessment) (output : String) : String :=
  "Execution succeeded but output was insufficient to judge replicability.\n" ++
  "Judge rationale: " ++ jsOr (jsTrim a.rationale) "(no rationale)" ++ "\n" ++
  "Missing: " ++ jsOr (joinSep "; " a.missing) "(none listed)" ++ "\n" ++
  "Requested changes: " ++ jsOr (joinSep "; " a.requested_changes) "(none listed)" ++
  "\n\n" ++ "Output snippet:\n" ++ toLogSnippet output 2000

/-- One pass of the loop body of `runEvalAgent` (agent.ts lines 470–579):
generate, execute, record the step, then branch on the execution result
(and, on success with sufficiency checking enabled, on the verdict). -/
def loopStep (o : Oracles) (p : RunParams) (s : LoopState) : StepOutcome :=
  match o.getCodeS (genParamsOf p s) with
  | .error e => .fatal e
  | .ok suggestion =>
    let language := jsOrString suggestion.language p.defaultLanguage
    match o.execS s.iteration suggestion.code language with
    | .success output =>
      if p.requireSufficientOutput then
        match o.assessS s.iteration (assessParamsOf p output) with
        | .error e => .fatal e
        | .ok assessment =>
          if assessment.sufficient then
            .done (.success
              (s.steps ++ [⟨s.iteration, suggestion, .success output, some assessment⟩])
              output (some assessment))
          else
            .nextIter ⟨s.iteration + 1,
              s.steps ++ [⟨s.iteration, suggestion, .success output, some assessment⟩],
              some suggestion, some (insufficiencyError assessment output)⟩
      else
        .done (.success
          (s.steps ++ [⟨s.iteration, suggestion, .success output, none⟩])
          output none)
    | .failure err =>
      .nextIter ⟨s.iteration + 1,
        s.steps ++ [⟨s.iteration, suggestion, .failure err, none⟩],
        some suggestion, some err⟩

/-- The terminal message when the loop exhausts its budget with no
recorded error (agent.ts line 589, nullish coalescing). -/
def maxIterationsMessage : String :=
  "Max iterations reached without a successful run."

/-- The loop of `runEvalAgent`, by remaining-iteration fuel.  When the
fuel is exhausted the exhaustion result of agent.ts lines 586–590 is
returned. -/
def runAux (o : Oracles) (p : RunParams) : Nat → LoopState → Except String EvalAgentResult
  | 0, s => .ok (.failure s.steps (s.lastError.getD maxIterationsMessage))
  | fuel + 1, s =>
    match loopStep o p s with
    | .fatal e => .error e
    | .done r => .ok r
    | .nextIter s' => runAux o p fuel s'

/-- The initial loop state (agent.ts lines 466–468). -/
def initState : LoopState := ⟨0, [], none, none⟩

/-- agent.ts `runEvalAgent` (lines 437–591): run the loop from the empty
state for `maxIterations` iterations.  An `Except.error` is an uncaught
exception escaping `run()`. -/
def runEvalAgent (o : Oracles) (p : RunParams) : Except String EvalAgentResult :=
  runAux o p p.maxIterations initState

/-- The states the loop passes through: `stateAt o p k` is the loop state
at the top of iteration `k`, provided every earlier iteration continued
(did not return or throw). -/
def stateAt (o : Oracles) (p : RunParams) : Nat → Option LoopState
  | 0 => some initState
  | k + 1 =>
    match stateAt o p k with
    | some s =>
      match loopStep o p s with
      | .nextIter s' => some s'
      | _ => none
    | none => none

/-- A paper text of 60001 identical characters, one character over the
generator's paper budget. -/
def bigPaper : String := String.mk (List.replicate 60001 'a')

/-! ### Trajectory invariants -/

/-- Every recorded step's `iteration` equals its index in the history. -/
def StepsIndexed (steps : List EvalAgentStep) : Prop :=
  ∀ i (hi : i < steps.length), (steps.get ⟨i, hi⟩).iteration = i

/-- The error recorded by a step that caused the loop to continue:
the execution error, or the insufficiency composite. -/
def continuationError (st : EvalAgentStep) : Option String :=
  match st.runResult, st.outputAssessment with
  | .failure e, _ => some e
  | .success out, some a => some (insufficiencyError a out)
  | .success _, none => none

/-- A step's judge verdict is populated exactly when its execution
succeeded and sufficiency checking was enabled. -/
def JudgeOnSuccess (p : RunParams) (steps : List EvalAgentStep) : Prop :=
  ∀ st ∈ steps, st.outputAssessment.isSome =
    (st.runResult.isSuccess && p.requireSufficientOutput)

/-! ### Concrete runs used by the witnesses -/

def wSugg : CodeSuggestion := ⟨"print(1)", some "python", none⟩

def wAssessOk : OutputAssessment := ⟨true, [], "ok", []⟩

/-- Oracles: iteration 0 fails execution with "E0", iteration 1 succeeds
with output "OUT" judged sufficient. -/
def wOracles : Oracles where
  getCodeS := fun _ => .ok wSugg
  execS := fun i _ _ => if i = 0 then .failure "E0" else .success "OUT"
  assessS := fun _ _ => .ok wAssessOk

def wParams : RunParams := { task := "t", maxIterations := 3 }

def wStep0 : EvalAgentStep := ⟨0, wSugg, .failure "E0", none⟩

def wStep1 : EvalAgentStep := ⟨1, wSugg, .success "OUT", some wAssessOk⟩

def wState1 : LoopState := ⟨1, [wStep0], some wSugg, some "E0"⟩

def wResult : EvalAgentResult := .success [wStep0, wStep1] "OUT" (some wAssessOk)

/-- Oracles whose executions always fail ("E0" then "E1"). -/
def wOraclesFail : Oracles where
  getCodeS := fun _ => .ok wSugg
  execS := fun i _ _ => .failure (if i = 0 then "E0" else "E1")
  assessS := fun _ _ => .ok wAssessOk

def wParamsFail : RunParams := { task := "t", maxIterations := 2 }

def wStateFail : LoopState :=
  ⟨2, [⟨0, wSugg, .failure "E0", none⟩, ⟨1, wSugg, .failure "E1", none⟩],
    some wSugg, some "E1"⟩

/-- Oracles for a run whose executor is the real `runInE2b` with the
sandbox credential absent (the runtime behaviour is irrelevant: the
credential check comes first). -/
def c1Oracles : Oracles where
  getCodeS := fun _ => .ok wSugg
  execS := fun _ code lang => runInE2b none (.completes ⟨none, none, [], []⟩) code (some lang)
  assessS := fun _ _ => .ok wAssessOk

def c1Params : RunParams := { task := "t", maxIterations := 2 }

/-! ### Suggestion-response extraction and parsing (agent.ts lines 153–313) -/

/-- One entry of a response item's `content` array.  `text` mirrors
`content.text` when it is a string; `json` holds `JSON.stringify(content.json)`
when `content.json` is a non-null object (the stringified form is what the
source pushes as a candidate), `none` otherwise. -/
structure ContentPart where
  text : Option String
  json : Option String
deriving DecidableEq, Repr

/-- One entry of `payload.output`. -/
structure OutputItem where
  content : List ContentPart
deriving DecidableEq, Repr

/-- agent.ts `SuggestionResponsePayload` (lines 153–162): absent arrays
are modelled as empty lists (the source applies `?? []`). -/
structure SuggestionResponsePayload where
  output_text : Option String
  output : List OutputItem
deriving DecidableEq, Repr

/-- The candidate strings assembled by `extractFirstJsonCandidate`
(agent.ts lines 170–186), in push order: the trimmed `output_text` when
truthy, then per content part its trimmed `text` when truthy followed by
the stringified `json` when present. -/
def candidateList (payload : SuggestionResponsePayload) : List String :=
  (match payload.output_text with
   | some t => if jsTrim t ≠ "" then [jsTrim t] else []
   | none => []) ++
  (payload.output.flatMap fun item =>
    item.content.flatMap fun c =>
      (match c.text with
       | some t => if jsTrim t ≠ "" then [jsTrim t] else []
       | none => []) ++
      (match c.json with
       | some j => [j]
       | none => []))

/-- The JSON-object shape test of agent.ts lines 188–191: the trimmed
candidate starts with `{` and ends with `}`. -/
def jsonShaped (c : String) : Bool :=
  strStarts (jsTrim c) "\x7b" && strEnds (jsTrim c) "\x7d"

/-- agent.ts `extractFirstJsonCandidate` (lines 170–194): the first
candidate passing the shape test, else `null`. -/
def extractFirstJsonCandidate (payload : SuggestionResponsePayload) :
    Option String :=
  (candidateList payload).find? jsonShaped

/-- A parsed JavaScript value (the result of `JSON.parse`). -/
inductive JsValue where
  | nullV
  | boolV (b : Bool)
  | numV (n : Int)
  | strV (s : String)
  | arrV (xs : List JsValue)
  | objV (fields : List (String × JsValue))

/-- Property lookup on a parsed value: `undefined` (`none`) when the
value lacks the property or is not an object.  (A candidate string that
passed the brace-shape test and parsed cleanly is always an object, so
the non-object branch is unreachable for real `JSON.parse` output; it is
modelled as `undefined`, which the truthiness check rejects just as the
source rejects it.) -/
def jsField (v : JsValue) (name : String) : Option JsValue :=
  match v with
  | .objV fields => (fields.find? (fun f => f.1 = name)).map (fun f => f.2)
  | _ => none

/-- The `typeof x === "string" && x.trim().length > 0 ? x.trim() : undefined`
normalization applied to `language` and `explanation`
(agent.ts lines 305–312). -/
def strFieldOpt (v : Option JsValue) : Option String :=
  match v with
  | some (.strV s) => if jsTrim s ≠ "" then some (jsTrim s) else none
  | _ => none

/-- agent.ts lines 298–313: validate the parsed object.  The source
throws unless `parsed.code` is truthy and a string — i.e. a non-empty
string; `language`/`explanation` are trimmed and dropped when empty. -/
def parseCodeSuggestion (v : JsValue) : Except String CodeSuggestion :=
  match jsField v "code" with
  | some (.strV c) =>
    if c = "" then
      .error "Code suggestion JSON did not include a valid 'code' field."
    else
      .ok { code := c
            language := strFieldOpt (jsField v "language")
            explanation := strFieldOpt (jsField v "explanation") }
  | _ => .error "Code suggestion JSON did not include a valid 'code' field."

/-- The response-processing stage of `getCodeSuggestion` (agent.ts lines
293–313), for an OK response: extract the first JSON-shaped candidate
(hard failure when there is none), `JSON.parse` it (`parse` is the
library parser; `none` is a parse exception, also a hard failure), then
validate.  Every `Except.error` is a thrown exception in the source. -/
def getCodeSuggestionFromPayload (parse : String → Option JsValue)
    (payload : SuggestionResponsePayload) : Except String CodeSuggestion :=
  match extractFirstJsonCandidate payload with
  | none => .error "Code suggestion response did not include JSON output."
  | some s =>
    match parse s with
    | none => .error "Unexpected end of JSON input"
    | some v => parseCodeSuggestion v

/-- Concrete material for the witness of `generation_unparseable_fatal`. -/
def c8PayloadNoJson : SuggestionResponsePayload :=
  ⟨some "no json here", [⟨[⟨some "also not json", none⟩]⟩]⟩

def c8PayloadBadCode : SuggestionResponsePayload :=
  ⟨some "\x7b bad \x7d", []⟩

def c8Parse : String → Option JsValue := fun _ => none

def c8ParseBad : String → Option JsValue :=
  fun _ => some (.objV [("code", .strV "")])

def c8Oracles : Oracles where
  getCodeS := fun _ => .error "boom"
  execS := fun _ _ _ => .failure "unused"
  assessS := fun _ _ => .ok wAssessOk

def c8Params : RunParams := { task := "t", maxIterations := 2 }

/-- The insufficient-then-sufficient judge scenario used by the witness:
iteration 0 succeeds with output "O0" judged insufficient
(`missing = ["seed"]`); the composite feedback must mention "seed". -/
def c9Assess : OutputAssessment := ⟨false, ["seed"], "needs the seed", []⟩

def c9Oracles : Oracles where
  getCodeS := fun _ => .ok wSugg
  execS := fun _ _ _ => .success "O0"
  assessS := fun _ _ => .ok c9Assess

def c9Params : RunParams := { task := "t", maxIterations := 2 }

/-! ### Model resolution (agent.ts lines 210 and 328) -/

/-- agent.ts line 210: `params.model || process.env.EVAL_MODEL ||
"gpt-5.2-2025-12-11"`. -/
def resolveGenerationModel (model : Option String) (envEvalModel : Option String) :
    String :=
  jsOrString model (jsOrString envEvalModel "gpt-5.2-2025-12-11")

/-- agent.ts line 328: `params.model || process.env.EVAL_JUDGE_MODEL ||
"gpt-5.2-2025-12-11"`. -/
def resolveJudgeModel (model : Option String) (envJudgeModel : Option String) :
    String :=
  jsOrString model (jsOrString envJudgeModel "gpt-5.2-2025-12-11")

/-- Two oracle sets that answer identically on every call issued up to
and including iteration `k`. -/
def OraclesAgreeUpTo (o o2 : Oracles) (k : Nat) : Prop :=
  (∀ gp : GenParams, gp.iteration ≤ k → o.getCodeS gp = o2.getCodeS gp) ∧
  (∀ i code lang, i ≤ k → o.execS i code lang = o2.execS i code lang) ∧
  (∀ i ap, i ≤ k → o.assessS i ap = o2.assessS i ap)

/-! ### Theorems -/

/-! ### String lemmas -/

theorem strData_append (a b : String) : (a ++ b).data = a.data ++ b.data := by
  cases a; cases b; rfl

theorem strLen_append (a b : String) : strLen (a ++ b) = strLen a + strLen b := by
  simp [strLen, strData_append]

theorem strLen_strTake (s : String) (n : Nat) :
    strLen (strTake s n) = min n (strLen s) := by
  simp [strLen, strTake]

theorem strContains_refl (s : String) : strContains s s :=
  ⟨[], [], by simp⟩

theorem strContains_empty (s : String) : strContains s "" :=
  ⟨s.data, [], by simp [show ("" : String).data = [] from rfl]⟩

theorem strContains_appendRight (x y : String) (n : String)
    (h : strContains y n) : strContains (x ++ y) n := by
  obtain ⟨a, b, hab⟩ := h
  exact ⟨x.data ++ a, b, by simp [strData_append, hab]⟩

theorem strContains_appendLeft (x y : String) (n : String)
    (h : strContains x n) : strContains (x ++ y) n := by
  obtain ⟨a, b, hab⟩ := h
  exact ⟨a, b ++ y.data, by simp [strData_append, hab]⟩

theorem strContains_trans (x y z : String)
    (hxy : strContains x y) (hyz : strContains y z) : strContains x z := by
  obtain ⟨a, b, hab⟩ := hxy
  obtain ⟨c, d, hcd⟩ := hyz
  exact ⟨a ++ c, d ++ b, by simp [hab, hcd]⟩

theorem strContains_mem (hay needle : String) (h : strContains hay needle) :
    ∀ c ∈ needle.data, c ∈ hay.data := by
  obtain ⟨a, b, hab⟩ := h
  intro c hc
  rw [hab]
  simp only [List.mem_append]
  exact Or.inl (Or.inr hc)

theorem strContains_of_empty_hay (needle : String)
    (h : strContains "" needle) : needle = "" := by
  obtain ⟨a, b, hab⟩ := h
  have hnil : ("" : String).data = [] := rfl
  rw [hnil] at hab
  have hlen : needle.data.length = 0 := by
    have hl := congrArg List.length hab
    simp only [List.length_nil, List.length_append] at hl
    omega
  have hd : needle.data = [] := List.length_eq_zero.mp hlen
  cases needle with
  | mk d =>
    have hd' : d = [] := hd
    rw [hd']

/-- Every element of a list occurs inside its `join`. -/
theorem joinSep_contains (sep : String) (l : List String) :
    ∀ m ∈ l, strContains (joinSep sep l) m := by
  induction l with
  | nil => intro m hm; cases hm
  | cons x xs ih =>
    intro m hm
    cases xs with
    | nil =>
      rcases List.mem_singleton.mp hm with rfl
      exact strContains_refl m
    | cons y ys =>
      rcases List.mem_cons.mp hm with rfl | hm'
      · show strContains (m ++ sep ++ joinSep sep (y :: ys)) m
        exact strContains_appendLeft _ _ _ (strContains_appendLeft _ _ _ (strContains_refl m))
      · show strContains (x ++ sep ++ joinSep sep (y :: ys)) m
        exact strContains_appendRight _ _ _ (ih m hm')

/-- `jsOr` preserves containment of a list element through the fallback. -/
theorem jsOr_joinSep_contains (sep fb : String) (l : List String) :
    ∀ m ∈ l, strContains (jsOr (joinSep sep l) fb) m := by
  intro m hm
  unfold jsOr
  by_cases hj : joinSep sep l = ""
  · rw [if_pos hj]
    have hc := joinSep_contains sep l m hm
    rw [hj] at hc
    rw [strContains_of_empty_hay _ hc]
    exact strContains_empty _
  · rw [if_neg hj]
    exact joinSep_contains sep l m hm

/-! ### Truncation lemmas -/

theorem strTake_append_left (x y : String) (m : Nat) (h : strLen x = m) :
    strTake (x ++ y) m = strTake x m := by
  unfold strTake
  rw [strData_append]
  congr 1
  rw [List.take_append_eq_append_take]
  have hx : x.data.length = m := h
  simp [hx]

theorem strLen_strTake_of_lt (v : String) (m : Nat) (h : m < strLen v) :
    strLen (strTake v m) = m := by
  rw [strLen_strTake]
  omega

/-- A string sandwiched in the middle of appends is contained. -/
theorem strContains_middle (a n b : String) :
    strContains (a ++ n ++ b) n :=
  strContains_appendLeft _ _ _ (strContains_appendRight _ _ _ (strContains_refl n))

theorem truncateText_eq (v : String) (m : Nat) (h : m < strLen v) :
    truncateText v m =
      strTake v m ++ "\n...[truncated " ++ Nat.repr (strLen v - m) ++ " chars]" := by
  unfold truncateText
  rw [if_neg (by omega)]

theorem toLogSnippet_eq (v : String) (m : Nat) (h : m < strLen v) :
    toLogSnippet v m =
      strTake v m ++ "\n...[truncated " ++ Nat.repr (strLen v - m) ++ " chars]" := by
  unfold toLogSnippet
  rw [if_neg (by omega)]

theorem truncateText_takesLead (v : String) (m : Nat) (h : m < strLen v) :
    strTake (truncateText v m) m = strTake v m := by
  rw [truncateText_eq v m h]
  rw [show strTake v m ++ "\n...[truncated " ++ Nat.repr (strLen v - m) ++ " chars]"
      = strTake v m ++ ("\n...[truncated " ++ Nat.repr (strLen v - m) ++ " chars]") by
    simp [String.append_assoc]]
  rw [strTake_append_left _ _ m (strLen_strTake_of_lt v m h)]
  unfold strTake
  congr 1
  simp [List.take_take]

theorem truncateText_containsCount (v : String) (m : Nat) (h : m < strLen v) :
    strContains (truncateText v m) (Nat.repr (strLen v - m)) := by
  rw [truncateText_eq v m h]
  exact strContains_middle _ _ _

theorem paperSnippet_eq (v : String) (h : MAX_PAPER_CHARS < strLen v) :
    paperSnippetForPrompt v = strTake v MAX_PAPER_CHARS ++ "\n...[truncated]" := by
  unfold paperSnippetForPrompt
  rw [if_pos (by omega)]

theorem paperSnippet_takesLead (v : String) (h : MAX_PAPER_CHARS < strLen v) :
    strTake (paperSnippetForPrompt v) MAX_PAPER_CHARS = strTake v MAX_PAPER_CHARS := by
  rw [paperSnippet_eq v h]
  rw [strTake_append_left _ _ MAX_PAPER_CHARS (strLen_strTake_of_lt v _ h)]
  unfold strTake
  congr 1
  simp [List.take_take]

theorem toLogSnippet_eq_truncateText (v : String) (m : Nat) :
    toLogSnippet v m = truncateText v m := rfl

/-- C2 counterexample: the generator's paper-text truncation
(`buildUserPrompt`, agent.ts lines 94–98) keeps the prefix but appends the
countless marker `"\n...[truncated]"`.  For a 60001-character paper the
omitted count is 1, yet the decimal representation `"1"` of that count
occurs nowhere in the truncated output — so not every truncation carries
an explicit count of the omitted characters. -/
theorem paperSnippet_count_missing :
    MAX_PAPER_CHARS < strLen bigPaper ∧
    paperSnippetForPrompt bigPaper =
      String.mk (List.replicate 60000 'a') ++ "\n...[truncated]" ∧
    ¬ strContains (paperSnippetForPrompt bigPaper)
        (Nat.repr (strLen bigPaper - MAX_PAPER_CHARS)) := by
  have hdata : bigPaper.data = List.replicate 60001 'a' := rfl
  have hlen : strLen bigPaper = 60001 := by
    rw [strLen, hdata, List.length_replicate]
  have h1 : MAX_PAPER_CHARS < strLen bigPaper := by
    rw [hlen]; norm_num [MAX_PAPER_CHARS]
  have htake : strTake bigPaper MAX_PAPER_CHARS = String.mk (List.replicate 60000 'a') := by
    rw [strTake, hdata, List.take_replicate]
    norm_num [MAX_PAPER_CHARS]
  have h2 : paperSnippetForPrompt bigPaper =
      String.mk (List.replicate 60000 'a') ++ "\n...[truncated]" := by
    rw [paperSnippet_eq bigPaper h1, htake]
  refine ⟨h1, h2, ?_⟩
  intro hcon
  have hrepr : Nat.repr (strLen bigPaper - MAX_PAPER_CHARS) = "1" := by
    rw [hlen]; rfl
  have hmem : '1' ∈ (paperSnippetForPrompt bigPaper).data := by
    apply strContains_mem _ _ hcon
    rw [hrepr]
    decide
  rw [h2, strData_append] at hmem
  rcases List.mem_append.mp hmem with hrep | hmark
  · exact absurd (List.eq_of_mem_replicate hrep) (by decide)
  · exact absurd hmark (by decide)

/-- **C2** (amended): for any text longer than its budget, `truncateText`
and `toLogSnippet` keep exactly the first `budget` characters of the
original and embed the decimal count of the omitted characters; the
generator's paper-text truncation in `buildUserPrompt` also keeps exactly
the first `MAX_PAPER_CHARS` characters and appends an explicit marker,
but that marker carries no count of the omitted characters. -/
theorem truncation_keeps_explicit_prefix (v : String) (m : Nat) (h : m < strLen v) :
    strTake (truncateText v m) m = strTake v m ∧
    strContains (truncateText v m) (Nat.repr (strLen v - m)) ∧
    strTake (toLogSnippet v m) m = strTake v m ∧
    strContains (toLogSnippet v m) (Nat.repr (strLen v - m)) ∧
    (MAX_PAPER_CHARS < strLen v →
      strTake (paperSnippetForPrompt v) MAX_PAPER_CHARS = strTake v MAX_PAPER_CHARS ∧
      paperSnippetForPrompt v = strTake v MAX_PAPER_CHARS ++ "\n...[truncated]") := by
  refine ⟨truncateText_takesLead v m h, truncateText_containsCount v m h, ?_, ?_, ?_⟩
  · rw [toLogSnippet_eq_truncateText]
    exact truncateText_takesLead v m h
  · rw [toLogSnippet_eq_truncateText]
    exact truncateText_containsCount v m h
  · intro hp
    exact ⟨paperSnippet_takesLead v hp, paperSnippet_eq v hp⟩

/-- Witness for `truncation_keeps_explicit_prefix` at a concrete input. -/
theorem truncation_keeps_explicit_prefix_witness :
    3 < strLen "abcdef" ∧
    (strTake (truncateText "abcdef" 3) 3 = strTake "abcdef" 3 ∧
     strContains (truncateText "abcdef" 3) (Nat.repr (strLen "abcdef" - 3)) ∧
     strTake (toLogSnippet "abcdef" 3) 3 = strTake "abcdef" 3 ∧
     strContains (toLogSnippet "abcdef" 3) (Nat.repr (strLen "abcdef" - 3)) ∧
     (MAX_PAPER_CHARS < strLen "abcdef" →
       strTake (paperSnippetForPrompt "abcdef") MAX_PAPER_CHARS =
         strTake "abcdef" MAX_PAPER_CHARS ∧
       paperSnippetForPrompt "abcdef" =
         strTake "abcdef" MAX_PAPER_CHARS ++ "\n...[truncated]")) :=
  ⟨by decide, truncation_keeps_explicit_prefix "abcdef" 3 (by decide)⟩

/-! ### Loop-step inversion lemmas -/

theorem loopStep_nextIter_inv (o : Oracles) (p : RunParams) (s s' : LoopState)
    (h : loopStep o p s = .nextIter s') :
    s'.iteration = s.iteration + 1 ∧
    ∃ st, s'.steps = s.steps ++ [st] ∧ st.iteration = s.iteration ∧
      s'.previousSuggestion = some st.suggestion ∧
      ((∃ e, st.runResult = .failure e ∧ st.outputAssessment = none ∧
          s'.lastError = some e) ∨
       (∃ out a, st.runResult = .success out ∧ st.outputAssessment = some a ∧
          a.sufficient = false ∧ p.requireSufficientOutput = true ∧
          s'.lastError = some (insufficiencyError a out))) := by
  unfold loopStep at h
  cases hsug : o.getCodeS (genParamsOf p s) with
  | error e =>
    rw [hsug] at h
    exact StepOutcome.noConfusion h
  | ok suggestion =>
    rw [hsug] at h
    dsimp only at h
    cases hexec : o.execS s.iteration suggestion.code
        (jsOrString suggestion.language p.defaultLanguage) with
    | failure err =>
      rw [hexec] at h
      dsimp only at h
      cases h
      exact ⟨rfl, ⟨s.iteration, suggestion, .failure err, none⟩,
        rfl, rfl, rfl, Or.inl ⟨err, rfl, rfl, rfl⟩⟩
    | success output =>
      rw [hexec] at h
      dsimp only at h
      by_cases hreq : p.requireSufficientOutput = true
      · rw [if_pos hreq] at h
        cases hass : o.assessS s.iteration (assessParamsOf p output) with
        | error e =>
          rw [hass] at h
          exact StepOutcome.noConfusion h
        | ok assessment =>
          rw [hass] at h
          dsimp only at h
          by_cases hsuf : assessment.sufficient = true
          · rw [if_pos hsuf] at h
            exact StepOutcome.noConfusion h
          · rw [if_neg hsuf] at h
            cases h
            exact ⟨rfl, ⟨s.iteration, suggestion, .success output, some assessment⟩,
              rfl, rfl, rfl, Or.inr ⟨output, assessment, rfl, rfl,
                Bool.not_eq_true _ ▸ (by simpa using hsuf), hreq, rfl⟩⟩
      · rw [if_neg hreq] at h
        exact StepOutcome.noConfusion h

theorem loopStep_done_inv (o : Oracles) (p : RunParams) (s : LoopState)
    (r : EvalAgentResult) (h : loopStep o p s = .done r) :
    ∃ st out, st.iteration = s.iteration ∧ st.runResult = .success out ∧
      r = .success (s.steps ++ [st]) out st.outputAssessment ∧
      ((st.outputAssessment = none ∧ p.requireSufficientOutput = false) ∨
       (∃ a, st.outputAssessment = some a ∧ a.sufficient = true ∧
          p.requireSufficientOutput = true)) := by
  unfold loopStep at h
  cases hsug : o.getCodeS (genParamsOf p s) with
  | error e =>
    rw [hsug] at h
    exact StepOutcome.noConfusion h
  | ok suggestion =>
    rw [hsug] at h
    dsimp only at h
    cases hexec : o.execS s.iteration suggestion.code
        (jsOrString suggestion.language p.defaultLanguage) with
    | failure err =>
      rw [hexec] at h
      dsimp only at h
      exact StepOutcome.noConfusion h
    | success output =>
      rw [hexec] at h
      dsimp only at h
      by_cases hreq : p.requireSufficientOutput = true
      · rw [if_pos hreq] at h
        cases hass : o.assessS s.iteration (assessParamsOf p output) with
        | error e =>
          rw [hass] at h
          exact StepOutcome.noConfusion h
        | ok assessment =>
          rw [hass] at h
          dsimp only at h
          by_cases hsuf : assessment.sufficient = true
          · rw [if_pos hsuf] at h
            cases h
            exact ⟨⟨s.iteration, suggestion, .success output, some assessment⟩, output,
              rfl, rfl, rfl, Or.inr ⟨assessment, rfl, hsuf, hreq⟩⟩
          · rw [if_neg hsuf] at h
            exact StepOutcome.noConfusion h
      · rw [if_neg hreq] at h
        cases h
        exact ⟨⟨s.iteration, suggestion, .success output, none⟩, output,
          rfl, rfl, rfl, Or.inl ⟨rfl, by simpa using hreq⟩⟩

theorem stepsIndexed_nil : StepsIndexed [] := by
  intro i hi
  simp at hi

theorem stepsIndexed_append (l : List EvalAgentStep) (st : EvalAgentStep)
    (hst : st.iteration = l.length) (hinv : StepsIndexed l) :
    StepsIndexed (l ++ [st]) := by
  intro i hi
  rw [List.get_eq_getElem]
  by_cases hil : i < l.length
  · rw [List.getElem_append_left hil]
    have := hinv i hil
    rwa [List.get_eq_getElem] at this
  · have hieq : i = l.length := by
      have := hi
      simp only [List.length_append, List.length_singleton] at this
      omega
    rw [List.getElem_concat_length l st i hieq]
    omega

theorem stateAt_succ_inv (o : Oracles) (p : RunParams) (k : Nat) (s' : LoopState)
    (h : stateAt o p (k + 1) = some s') :
    ∃ s, stateAt o p k = some s ∧ loopStep o p s = .nextIter s' := by
  unfold stateAt at h
  cases hk : stateAt o p k with
  | none => rw [hk] at h; exact Option.noConfusion h
  | some s =>
    rw [hk] at h
    dsimp only at h
    cases hl : loopStep o p s with
    | nextIter s1 =>
      rw [hl] at h
      dsimp only at h
      cases h
      exact ⟨s, rfl, hl⟩
    | done r => rw [hl] at h; exact Option.noConfusion h
    | fatal e => rw [hl] at h; exact Option.noConfusion h

/-- The loop-state invariant along the trajectory: at the top of iteration
`k` the counter is `k`, exactly `k` steps are recorded, indexed by their
iteration, and (for `k > 0`) `lastError` is the error recorded by the most
recent step. -/
theorem stateAt_inv (o : Oracles) (p : RunParams) :
    ∀ k s, stateAt o p k = some s →
      s.iteration = k ∧ s.steps.length = k ∧ StepsIndexed s.steps := by
  intro k
  induction k with
  | zero =>
    intro s h
    cases h
    exact ⟨rfl, rfl, stepsIndexed_nil⟩
  | succ k ih =>
    intro s' h
    obtain ⟨s, hk, hl⟩ := stateAt_succ_inv o p k s' h
    obtain ⟨hit, hlen, hidx⟩ := ih s hk
    obtain ⟨hit', st, hsteps, hstit, _, _⟩ := loopStep_nextIter_inv o p s s' hl
    refine ⟨by omega, ?_, ?_⟩
    · rw [hsteps, List.length_append, List.length_singleton]
      omega
    · rw [hsteps]
      exact stepsIndexed_append s.steps st (by omega) hidx

/-- Along the trajectory, after at least one continued iteration,
`lastError` is exactly the error recorded by the most recent step. -/
theorem stateAt_lastError (o : Oracles) (p : RunParams) (k : Nat) (s' : LoopState)
    (h : stateAt o p (k + 1) = some s') :
    ∃ st, s'.steps.getLast? = some st ∧ s'.lastError = continuationError st ∧
      (continuationError st).isSome := by
  obtain ⟨s, _, hl⟩ := stateAt_succ_inv o p k s' h
  obtain ⟨_, st, hsteps, _, _, hbranch⟩ := loopStep_nextIter_inv o p s s' hl
  refine ⟨st, by rw [hsteps]; exact List.getLast?_concat s.steps, ?_, ?_⟩
  · rcases hbranch with ⟨e, hrr, hoa, hle⟩ | ⟨out, a, hrr, hoa, _, _, hle⟩
    · rw [hle]
      unfold continuationError
      rw [hrr]
    · rw [hle]
      unfold continuationError
      rw [hrr, hoa]
  · rcases hbranch with ⟨e, hrr, hoa, _⟩ | ⟨out, a, hrr, hoa, _, _, _⟩
    · unfold continuationError
      rw [hrr]
      rfl
    · unfold continuationError
      rw [hrr, hoa]
      rfl

/-- Bridge: if the trajectory reaches state `s` at iteration `k` and the
run allows at least `k` iterations, the run computes exactly as the loop
continued from `s` with the remaining fuel. -/
theorem runAux_from_stateAt (o : Oracles) (p : RunParams) :
    ∀ k s, stateAt o p k = some s → k ≤ p.maxIterations →
      runEvalAgent o p = runAux o p (p.maxIterations - k) s := by
  intro k
  induction k with
  | zero =>
    intro s h _
    cases h
    rfl
  | succ k ih =>
    intro s' h hle
    obtain ⟨s, hk, hl⟩ := stateAt_succ_inv o p k s' h
    have hrun := ih s hk (by omega)
    have hfuel : p.maxIterations - k = (p.maxIterations - (k + 1)) + 1 := by omega
    rw [hrun, hfuel]
    show (match loopStep o p s with
      | .fatal e => Except.error e
      | .done r => Except.ok r
      | .nextIter s1 => runAux o p (p.maxIterations - (k + 1)) s1) = _
    rw [hl]

theorem runAux_zero (o : Oracles) (p : RunParams) (s : LoopState) :
    runAux o p 0 s = .ok (.failure s.steps (s.lastError.getD maxIterationsMessage)) := rfl

theorem runAux_succ (o : Oracles) (p : RunParams) (fuel : Nat) (s : LoopState) :
    runAux o p (fuel + 1) s =
      (match loopStep o p s with
       | .fatal e => .error e
       | .done r => .ok r
       | .nextIter s' => runAux o p fuel s') := rfl

/-- Any completed run extends the invariant from the starting state to the
result's step history, adding at most `fuel` steps. -/
theorem runAux_ok_inv (o : Oracles) (p : RunParams) :
    ∀ fuel s r, runAux o p fuel s = .ok r →
      s.steps.length = s.iteration → StepsIndexed s.steps →
      StepsIndexed r.steps ∧ r.steps.length ≤ s.iteration + fuel := by
  intro fuel
  induction fuel with
  | zero =>
    intro s r h hlen hidx
    rw [runAux_zero] at h
    cases h
    exact ⟨hidx, by simpa [EvalAgentResult.steps] using Nat.le_of_eq hlen⟩
  | succ fuel ih =>
    intro s r h hlen hidx
    rw [runAux_succ] at h
    cases hl : loopStep o p s with
    | fatal e =>
      rw [hl] at h
      exact Except.noConfusion h
    | done r' =>
      rw [hl] at h
      dsimp only at h
      cases h
      obtain ⟨st, out, hstit, _, hr, _⟩ := loopStep_done_inv o p s r hl
      rw [hr]
      constructor
      · exact stepsIndexed_append s.steps st (by omega) hidx
      · show (s.steps ++ [st]).length ≤ s.iteration + (fuel + 1)
        rw [List.length_append, List.length_singleton]
        omega
    | nextIter s' =>
      rw [hl] at h
      dsimp only at h
      obtain ⟨hit, st, hsteps, hstit, _, _⟩ := loopStep_nextIter_inv o p s s' hl
      have hlen' : s'.steps.length = s'.iteration := by
        rw [hsteps, List.length_append, List.length_singleton]
        omega
      have hidx' : StepsIndexed s'.steps := by
        rw [hsteps]
        exact stepsIndexed_append s.steps st (by omega) hidx
      have := ih s' r h hlen' hidx'
      exact ⟨this.1, by omega⟩

theorem judgeOnSuccess_append (p : RunParams) (l : List EvalAgentStep)
    (st : EvalAgentStep)
    (hst : st.outputAssessment.isSome = (st.runResult.isSuccess && p.requireSufficientOutput))
    (hl : JudgeOnSuccess p l) : JudgeOnSuccess p (l ++ [st]) := by
  intro x hx
  rcases List.mem_append.mp hx with hx' | hx'
  · exact hl x hx'
  · rcases List.mem_singleton.mp hx' with rfl
    exact hst

theorem runAux_ok_judge (o : Oracles) (p : RunParams) :
    ∀ fuel s r, runAux o p fuel s = .ok r →
      JudgeOnSuccess p s.steps → JudgeOnSuccess p r.steps := by
  intro fuel
  induction fuel with
  | zero =>
    intro s r h hj
    rw [runAux_zero] at h
    cases h
    exact hj
  | succ fuel ih =>
    intro s r h hj
    rw [runAux_succ] at h
    cases hl : loopStep o p s with
    | fatal e =>
      rw [hl] at h
      exact Except.noConfusion h
    | done r' =>
      rw [hl] at h
      dsimp only at h
      cases h
      obtain ⟨st, out, _, hrr, hr, hbranch⟩ := loopStep_done_inv o p s r hl
      rw [hr]
      apply judgeOnSuccess_append p s.steps st ?_ hj
      rcases hbranch with ⟨hoa, hreq⟩ | ⟨a, hoa, _, hreq⟩
      · rw [hoa, hrr, hreq]
        rfl
      · rw [hoa, hrr, hreq]
        rfl
    | nextIter s' =>
      rw [hl] at h
      dsimp only at h
      obtain ⟨_, st, hsteps, _, _, hbranch⟩ := loopStep_nextIter_inv o p s s' hl
      apply ih s' r h
      rw [hsteps]
      apply judgeOnSuccess_append p s.steps st ?_ hj
      rcases hbranch with ⟨e, hrr, hoa, _⟩ | ⟨out, a, hrr, hoa, _, hreq, _⟩
      · rw [hoa, hrr]
        rfl
      · rw [hoa, hrr, hreq]
        rfl

/-- The loop body consults the oracles only at the state's own iteration
index. -/
theorem loopStep_congr (o o2 : Oracles) (p : RunParams) (s : LoopState) (k : Nat)
    (hk : s.iteration ≤ k) (hagree : OraclesAgreeUpTo o o2 k) :
    loopStep o p s = loopStep o2 p s := by
  have hgen : o.getCodeS (genParamsOf p s) = o2.getCodeS (genParamsOf p s) :=
    hagree.1 _ hk
  have hexec : ∀ code lang, o.execS s.iteration code lang = o2.execS s.iteration code lang :=
    fun code lang => hagree.2.1 s.iteration code lang hk
  have hass : ∀ ap, o.assessS s.iteration ap = o2.assessS s.iteration ap :=
    fun ap => hagree.2.2 s.iteration ap hk
  unfold loopStep
  simp only [hgen, hexec, hass]

/-- The trajectory through iteration `k` is fixed by the oracle answers up
to iteration `k`. -/
theorem stateAt_congr (o o2 : Oracles) (p : RunParams) (k : Nat)
    (hagree : OraclesAgreeUpTo o o2 k) :
    ∀ j, j ≤ k → stateAt o p j = stateAt o2 p j := by
  intro j
  induction j with
  | zero => intro _; rfl
  | succ j ih =>
    intro hj
    have hprev := ih (by omega)
    show (match stateAt o p j with
      | some s => (match loopStep o p s with
        | .nextIter s1 => some s1
        | _ => none)
      | none => none) = (match stateAt o2 p j with
      | some s => (match loopStep o2 p s with
        | .nextIter s1 => some s1
        | _ => none)
      | none => none)
    rw [hprev]
    cases hs2 : stateAt o2 p j with
    | none => rfl
    | some s =>
      have hit : s.iteration = j := (stateAt_inv o2 p j s hs2).1
      dsimp only
      rw [loopStep_congr o o2 p s k (by omega) hagree]

/-- Helper for the early-termination claim: the terminal Success produced
once iteration `s.iteration` succeeds and is accepted. -/
theorem runEvalAgent_early_done (o : Oracles) (p : RunParams) (s : LoopState)
    (sugg : CodeSuggestion) (out : String) (fa : Option OutputAssessment)
    (hk : s.iteration < p.maxIterations)
    (hs : stateAt o p s.iteration = some s)
    (hsug : o.getCodeS (genParamsOf p s) = .ok sugg)
    (hexec : o.execS s.iteration sugg.code
      (jsOrString sugg.language p.defaultLanguage) = .success out)
    (hjudge : (p.requireSufficientOutput = false ∧ fa = none) ∨
      (p.requireSufficientOutput = true ∧ ∃ a,
        o.assessS s.iteration (assessParamsOf p out) = .ok a ∧
        a.sufficient = true ∧ fa = some a)) :
    runEvalAgent o p =
      .ok (.success (s.steps ++ [(⟨s.iteration, sugg, .success out, fa⟩ : EvalAgentStep)])
        out fa) := by
  have hstep : loopStep o p s =
      .done (.success (s.steps ++ [(⟨s.iteration, sugg, .success out, fa⟩ : EvalAgentStep)])
        out fa) := by
    unfold loopStep
    rw [hsug]
    dsimp only
    rw [hexec]
    dsimp only
    rcases hjudge with ⟨hreq, hfa⟩ | ⟨hreq, a, hass, hsuf, hfa⟩
    · rw [if_neg (by simp [hreq]), hfa]
    · rw [if_pos hreq, hass]
      dsimp only
      rw [if_pos hsuf, hfa]
  have hrun := runAux_from_stateAt o p s.iteration s hs (by omega)
  have hfuel : p.maxIterations - s.iteration = (p.maxIterations - s.iteration - 1) + 1 := by
    omega
  rw [hrun, hfuel, runAux_succ, hstep]

/-! ### Claim theorems: the orchestrator loop -/

/-- **C3** (early termination): if the trajectory reaches iteration `k`
(state `s`, `k = s.iteration < maxIterations`), iteration `k`'s generation
succeeds, its execution succeeds with output `out`, and either sufficiency
checking is disabled or the judge accepts, then `run()` returns Success
whose `finalOutput` is `out` and whose step history has exactly `k + 1`
entries, and no further iterations occur: every oracle set answering
identically up to iteration `k` — whatever its generator, executor and
judge do on later iterations — yields the very same result, so no
generator, executor or judge call beyond iteration `k` can influence or
be required for the outcome. -/
theorem run_early_termination (o : Oracles) (p : RunParams) (s : LoopState)
    (sugg : CodeSuggestion) (out : String) (fa : Option OutputAssessment)
    (hk : s.iteration < p.maxIterations)
    (hs : stateAt o p s.iteration = some s)
    (hsug : o.getCodeS (genParamsOf p s) = .ok sugg)
    (hexec : o.execS s.iteration sugg.code
      (jsOrString sugg.language p.defaultLanguage) = .success out)
    (hjudge : (p.requireSufficientOutput = false ∧ fa = none) ∨
      (p.requireSufficientOutput = true ∧ ∃ a,
        o.assessS s.iteration (assessParamsOf p out) = .ok a ∧
        a.sufficient = true ∧ fa = some a)) :
    runEvalAgent o p =
      .ok (.success (s.steps ++ [(⟨s.iteration, sugg, .success out, fa⟩ : EvalAgentStep)])
        out fa) ∧
    (s.steps ++ [(⟨s.iteration, sugg, .success out, fa⟩ : EvalAgentStep)]).length =
      s.iteration + 1 ∧
    (∀ o2 : Oracles, OraclesAgreeUpTo o o2 s.iteration →
      runEvalAgent o2 p =
        .ok (.success (s.steps ++ [(⟨s.iteration, sugg, .success out, fa⟩ : EvalAgentStep)])
          out fa)) := by
  have hlen := (stateAt_inv o p s.iteration s hs).2.1
  refine ⟨runEvalAgent_early_done o p s sugg out fa hk hs hsug hexec hjudge, ?_, ?_⟩
  · rw [List.length_append, List.length_singleton]
    omega
  · intro o2 hagree
    have hs2 : stateAt o2 p s.iteration = some s := by
      rw [← stateAt_congr o o2 p s.iteration hagree s.iteration (Nat.le_refl _)]
      exact hs
    have hsug2 : o2.getCodeS (genParamsOf p s) = .ok sugg :=
      (hagree.1 (genParamsOf p s) (Nat.le_refl _)).symm.trans hsug
    have hexec2 : o2.execS s.iteration sugg.code
        (jsOrString sugg.language p.defaultLanguage) = .success out :=
      (hagree.2.1 s.iteration _ _ (Nat.le_refl _)).symm.trans hexec
    have hjudge2 : (p.requireSufficientOutput = false ∧ fa = none) ∨
        (p.requireSufficientOutput = true ∧ ∃ a,
          o2.assessS s.iteration (assessParamsOf p out) = .ok a ∧
          a.sufficient = true ∧ fa = some a) := by
      rcases hjudge with h1 | ⟨hreq, a, hass, hsuf, hfa⟩
      · exact Or.inl h1
      · exact Or.inr ⟨hreq, a,
          (hagree.2.2 s.iteration _ (Nat.le_refl _)).symm.trans hass, hsuf, hfa⟩
    exact runEvalAgent_early_done o2 p s sugg out fa hk hs2 hsug2 hexec2 hjudge2

/-- Witness for `run_early_termination`: the concrete two-step run
`wOracles`/`wParams`, applied at iteration 1. -/
theorem run_early_termination_witness :
    runEvalAgent wOracles wParams =
      .ok (.success (wState1.steps ++
        [(⟨wState1.iteration, wSugg, .success "OUT", some wAssessOk⟩ : EvalAgentStep)])
        "OUT" (some wAssessOk)) ∧
    (wState1.steps ++
      [(⟨wState1.iteration, wSugg, .success "OUT", some wAssessOk⟩ : EvalAgentStep)]).length =
      wState1.iteration + 1 ∧
    (∀ o2 : Oracles, OraclesAgreeUpTo wOracles o2 wState1.iteration →
      runEvalAgent o2 wParams =
        .ok (.success (wState1.steps ++
          [(⟨wState1.iteration, wSugg, .success "OUT", some wAssessOk⟩ : EvalAgentStep)])
          "OUT" (some wAssessOk))) :=
  run_early_termination wOracles wParams wState1 wSugg "OUT" (some wAssessOk)
    (by decide) (by decide) (by decide) (by decide)
    (Or.inr ⟨by decide, wAssessOk, by decide, by decide, rfl⟩)

/-- **C4** (step monotonicity): in any completed run — one that returns an
`EvalAgentResult` instead of throwing — every recorded step's `iteration`
equals its index in the history (so there is exactly one record per
iteration that ran, in order, never removed or reordered), and the history
holds at most `maxIterations` steps. -/
theorem run_step_history_indexed (o : Oracles) (p : RunParams)
    (r : EvalAgentResult) (h : runEvalAgent o p = .ok r)
    (i : Nat) (hi : i < r.steps.length) :
    (r.steps.get ⟨i, hi⟩).iteration = i ∧ r.steps.length ≤ p.maxIterations := by
  have hinv := runAux_ok_inv o p p.maxIterations initState r h rfl stepsIndexed_nil
  refine ⟨hinv.1 i hi, ?_⟩
  have := hinv.2
  simpa [initState] using this

/-- Witness for `run_step_history_indexed` on the concrete run
`wOracles`/`wParams`, at index 1. -/
theorem run_step_history_indexed_witness :
    (wResult.steps.get ⟨1, by decide⟩).iteration = 1 ∧
    wResult.steps.length ≤ wParams.maxIterations :=
  run_step_history_indexed wOracles wParams wResult (by decide) 1 (by decide)

/-- **C5** (exhaustion): if every iteration through `maxIterations - 1`
continued (failed execution or was judged insufficient — exactly the two
ways the loop continues), `run()` returns Failure with exactly
`maxIterations` recorded steps, whose `lastError` is the `lastError`
accumulated by the loop; when at least one iteration ran, that is
precisely the error recorded by the most recent step (execution error or
insufficiency composite), and when `maxIterations = 0` no error was ever
recorded and the generic max-iterations message is reported. -/
theorem run_exhaustion (o : Oracles) (p : RunParams) (s : LoopState)
    (h : stateAt o p p.maxIterations = some s) :
    runEvalAgent o p =
      .ok (.failure s.steps (s.lastError.getD maxIterationsMessage)) ∧
    s.steps.length = p.maxIterations ∧
    (∀ k, p.maxIterations = k + 1 →
      ∃ st, s.steps.getLast? = some st ∧ s.lastError = continuationError st ∧
        (continuationError st).isSome) ∧
    (p.maxIterations = 0 → s.steps = [] ∧ s.lastError = none) := by
  have hrun := runAux_from_stateAt o p p.maxIterations s h (Nat.le_refl _)
  have hinv := stateAt_inv o p p.maxIterations s h
  refine ⟨?_, hinv.2.1, ?_, ?_⟩
  · rw [hrun, Nat.sub_self, runAux_zero]
  · intro k hk
    rw [hk] at h
    exact stateAt_lastError o p k s h
  · intro h0
    rw [h0] at h
    have hs : s = initState := by
      have : (some initState : Option LoopState) = some s := h
      exact (Option.some.inj this).symm
    rw [hs]
    exact ⟨rfl, rfl⟩

/-- Witness for `run_exhaustion`: the concrete run `wOraclesFail` whose two
iterations fail with "E0" and "E1". -/
theorem run_exhaustion_witness :
    runEvalAgent wOraclesFail wParamsFail =
      .ok (.failure wStateFail.steps (wStateFail.lastError.getD maxIterationsMessage)) ∧
    wStateFail.steps.length = wParamsFail.maxIterations ∧
    (∀ k, wParamsFail.maxIterations = k + 1 →
      ∃ st, wStateFail.steps.getLast? = some st ∧
        wStateFail.lastError = continuationError st ∧
        (continuationError st).isSome) ∧
    (wParamsFail.maxIterations = 0 →
      wStateFail.steps = [] ∧ wStateFail.lastError = none) :=
  run_exhaustion wOraclesFail wParamsFail wStateFail (by decide)

/-- **C6** (judge-only-on-success): in any completed run, a recorded
step's `outputAssessment` is populated exactly when that step's execution
result is a Success and sufficiency checking is enabled; in particular a
failing execution never carries a verdict, whatever
`requireSufficientOutput` is, and a successful execution with sufficiency
checking enabled always does (a judge throw would have aborted the run
instead of completing it). -/
theorem judge_only_on_success (o : Oracles) (p : RunParams)
    (r : EvalAgentResult) (h : runEvalAgent o p = .ok r)
    (st : EvalAgentStep) (hst : st ∈ r.steps) :
    st.outputAssessment.isSome =
      (st.runResult.isSuccess && p.requireSufficientOutput) := by
  refine runAux_ok_judge o p p.maxIterations initState r h ?_ st hst
  intro st' hst'
  cases hst'

/-- Witness for `judge_only_on_success` at the failing step 0 of the
concrete run `wOracles`/`wParams`. -/
theorem judge_only_on_success_witness :
    wStep0.outputAssessment.isSome =
      (wStep0.runResult.isSuccess && wParams.requireSufficientOutput) :=
  judge_only_on_success wOracles wParams wResult (by decide) wStep0 (by decide)

/-! ### Claim theorems: the sandboxed executor -/

/-- **C7** (success-path output): when the sandbox credential is present
and the runtime completes without a structured error, the executor
returns Success carrying: the trimmed primary text result when that is
non-empty; otherwise the combined stdout/stderr logs when those are
non-empty; otherwise the canonical "no output" placeholder — and in every
case the Success output is a non-empty string. -/
theorem runInE2b_success_path (apiKey : String) (hkey : apiKey ≠ "")
    (ex : E2bExecution) (hex : ex.error = none)
    (code : String) (language : Option String) :
    runInE2b (some apiKey) (.completes ex) code language =
      .success (e2bSuccessOutput ex) ∧
    e2bSuccessOutput ex ≠ "" ∧
    (jsTrim (ex.text.getD "") ≠ "" →
      e2bSuccessOutput ex = jsTrim (ex.text.getD "")) ∧
    (jsTrim (ex.text.getD "") = "" → e2bCombinedLogs ex ≠ "" →
      e2bSuccessOutput ex = e2bCombinedLogs ex) ∧
    (jsTrim (ex.text.getD "") = "" → e2bCombinedLogs ex = "" →
      e2bSuccessOutput ex = "Execution finished with no output.") := by
  refine ⟨?_, ?_, ?_, ?_, ?_⟩
  · unfold runInE2b
    rw [if_neg (by simp [jsOrString, hkey])]
    dsimp only
    rw [hex]
  · unfold e2bSuccessOutput
    by_cases ht : jsTrim (ex.text.getD "") = ""
    · rw [if_neg (by simp [ht])]
      by_cases hc : e2bCombinedLogs ex = ""
      · rw [if_neg (by simp [hc])]
        decide
      · rw [if_pos hc]
        exact hc
    · rw [if_pos ht]
      exact ht
  · intro ht
    unfold e2bSuccessOutput
    rw [if_pos ht]
  · intro ht hc
    unfold e2bSuccessOutput
    rw [if_neg (by simp [ht]), if_pos hc]
  · intro ht hc
    unfold e2bSuccessOutput
    rw [if_neg (by simp [ht]), if_neg (by simp [hc])]

/-- Witness for `runInE2b_success_path`: a completed execution with no
text result and log output "ab". -/
theorem runInE2b_success_path_witness :
    (runInE2b (some "k") (.completes ⟨none, none, ["a", "b"], []⟩) "x" none =
      .success (e2bSuccessOutput ⟨none, none, ["a", "b"], []⟩) ∧
    e2bSuccessOutput ⟨none, none, ["a", "b"], []⟩ ≠ "" ∧
    (jsTrim ((none : Option String).getD "") ≠ "" →
      e2bSuccessOutput ⟨none, none, ["a", "b"], []⟩ =
        jsTrim ((none : Option String).getD "")) ∧
    (jsTrim ((none : Option String).getD "") = "" →
      e2bCombinedLogs ⟨none, none, ["a", "b"], []⟩ ≠ "" →
      e2bSuccessOutput ⟨none, none, ["a", "b"], []⟩ =
        e2bCombinedLogs ⟨none, none, ["a", "b"], []⟩) ∧
    (jsTrim ((none : Option String).getD "") = "" →
      e2bCombinedLogs ⟨none, none, ["a", "b"], []⟩ = "" →
      e2bSuccessOutput ⟨none, none, ["a", "b"], []⟩ =
        "Execution finished with no output.")) :=
  runInE2b_success_path "k" (by decide) ⟨none, none, ["a", "b"], []⟩ rfl "x" none

/-- C1 counterexample: with the sandbox credential absent, `run()` does
not surface the configuration error immediately as fatal — the
orchestrator folds it into the retry loop as an ordinary execution
failure and retries it.  Concretely, a two-iteration run records two
steps, both carrying the configuration error, runs the generator a second
time after the first configuration failure, and completes normally with a
Failure result rather than throwing. -/
theorem e2b_config_error_retried_counterexample :
    runEvalAgent c1Oracles c1Params =
      .ok (.failure
        [⟨0, wSugg, .failure e2bConfigError, none⟩,
         ⟨1, wSugg, .failure e2bConfigError, none⟩] e2bConfigError) := by decide

/-- **C1** (amended): a missing sandbox credential makes `runInE2b` return
the distinct configuration-level error message — but as an ordinary
execution Failure, which the orchestrator treats like any other execution
failure: the loop records the step and continues to the next iteration
with `lastError` set to that message, rather than surfacing it as a fatal,
never-retried configuration error. -/
theorem e2b_config_error_retried (o : Oracles) (p : RunParams) (s : LoopState)
    (sugg : CodeSuggestion) (e : String)
    (hsug : o.getCodeS (genParamsOf p s) = .ok sugg)
    (hexec : o.execS s.iteration sugg.code
      (jsOrString sugg.language p.defaultLanguage) = .failure e) :
    (∀ b code lang, runInE2b none b code lang = .failure e2bConfigError) ∧
    loopStep o p s = .nextIter ⟨s.iteration + 1,
      s.steps ++ [(⟨s.iteration, sugg, .failure e, none⟩ : EvalAgentStep)],
      some sugg, some e⟩ := by
  constructor
  · intro b code lang
    rfl
  · unfold loopStep
    rw [hsug]
    dsimp only
    rw [hexec]

/-- Witness for `e2b_config_error_retried`: iteration 0 of the concrete
credential-less run `c1Oracles`. -/
theorem e2b_config_error_retried_witness :
    (∀ b code lang, runInE2b none b code lang = .failure e2bConfigError) ∧
    loopStep c1Oracles c1Params initState = .nextIter ⟨1,
      initState.steps ++ [(⟨0, wSugg, .failure e2bConfigError, none⟩ : EvalAgentStep)],
      some wSugg, some e2bConfigError⟩ :=
  e2b_config_error_retried c1Oracles c1Params initState wSugg e2bConfigError
    (by decide) (by decide)

/-- **C8** (unparseable generation output is fatal): (i) when no candidate
fragment of the model response both has the JSON-object shape and parses,
the generation stage throws; (ii) when the parsed object's `code` field is
the empty string or not a string, it throws the dedicated error; (iii) a
generation throw on iteration 0 aborts `run()` with that error before any
step is recorded — the thrown result carries no steps and iteration 1 is
never attempted (generation precedes execution and recording, and the
loop does not catch generator failures). -/
theorem generation_unparseable_fatal :
    (∀ (parse : String → Option JsValue) (payload : SuggestionResponsePayload),
      (∀ c ∈ candidateList payload,
        ¬(jsonShaped c = true ∧ (parse c).isSome = true)) →
      ∃ e, getCodeSuggestionFromPayload parse payload = .error e) ∧
    (∀ (parse : String → Option JsValue) (payload : SuggestionResponsePayload)
       (str : String) (v : JsValue),
      extractFirstJsonCandidate payload = some str → parse str = some v →
      (∀ c, jsField v "code" = some (.strV c) → c = "") →
      getCodeSuggestionFromPayload parse payload =
        .error "Code suggestion JSON did not include a valid 'code' field.") ∧
    (∀ (o : Oracles) (p : RunParams) (e : String), 0 < p.maxIterations →
      o.getCodeS (genParamsOf p initState) = .error e →
      runEvalAgent o p = .error e) := by
  refine ⟨?_, ?_, ?_⟩
  · intro parse payload h
    cases hext : extractFirstJsonCandidate payload with
    | none =>
      exact ⟨"Code suggestion response did not include JSON output.", by
        unfold getCodeSuggestionFromPayload
        rw [hext]⟩
    | some str =>
      have hshape : jsonShaped str = true := List.find?_some hext
      have hmem : str ∈ candidateList payload := List.mem_of_find?_eq_some hext
      have hparse : parse str = none := by
        cases hp : parse str with
        | none => rfl
        | some v => exact absurd ⟨hshape, by rw [hp]; rfl⟩ (h str hmem)
      exact ⟨"Unexpected end of JSON input", by
        unfold getCodeSuggestionFromPayload
        rw [hext]
        dsimp only
        rw [hparse]⟩
  · intro parse payload str v hext hparse hbad
    unfold getCodeSuggestionFromPayload
    rw [hext]
    dsimp only
    rw [hparse]
    dsimp only
    unfold parseCodeSuggestion
    cases hf : jsField v "code" with
    | none => rfl
    | some jv =>
      cases jv with
      | strV c =>
        have hc : c = "" := hbad c hf
        rw [hc]
        rfl
      | nullV => rfl
      | boolV b => rfl
      | numV n => rfl
      | arrV xs => rfl
      | objV fields => rfl
  · intro o p e hmax hsug
    obtain ⟨m, hm⟩ : ∃ m, p.maxIterations = m + 1 := ⟨p.maxIterations - 1, by omega⟩
    have hstep : loopStep o p initState = .fatal e := by
      unfold loopStep
      rw [hsug]
    unfold runEvalAgent
    rw [hm, runAux_succ, hstep]

/-- Witness for `generation_unparseable_fatal` at concrete payloads, a
concrete parser and a concrete failing run. -/
theorem generation_unparseable_fatal_witness :
    (∃ e, getCodeSuggestionFromPayload c8Parse c8PayloadNoJson = .error e) ∧
    getCodeSuggestionFromPayload c8ParseBad c8PayloadBadCode =
      .error "Code suggestion JSON did not include a valid 'code' field." ∧
    runEvalAgent c8Oracles c8Params = .error "boom" := by
  refine ⟨?_, ?_, ?_⟩
  · exact generation_unparseable_fatal.1 c8Parse c8PayloadNoJson (by decide)
  · refine generation_unparseable_fatal.2.1 c8ParseBad c8PayloadBadCode
      "\x7b bad \x7d" (.objV [("code", .strV "")]) (by decide) rfl ?_
    intro c h
    rw [show jsField (.objV [("code", .strV "")]) "code" = some (.strV "") from rfl] at h
    have h1 := Option.some.inj h
    cases h1
    rfl
  · exact generation_unparseable_fatal.2.2 c8Oracles c8Params "boom" (by decide) rfl

theorem jsOr_contains_self (a b : String) : strContains (jsOr a b) a := by
  unfold jsOr
  by_cases h : a = ""
  · rw [if_pos h, h]
    exact strContains_empty b
  · rw [if_neg h]
    exact strContains_refl a

/-- **C9** (insufficiency feedback): when an iteration's execution
succeeds but the judge returns `sufficient = false`, the loop continues to
the next iteration with `previousSuggestion` set to that iteration's
suggestion and `lastError` set to the composite string, and that
composite embeds the judge's rationale (whitespace-trimmed, as the source
embeds it), every entry of `missing`, every entry of `requested_changes`,
and the 2000-character bounded snippet of the actual output; in
particular, when `missing` contains `"seed"`, the error context carried to
the next generation call contains `"seed"`. -/
theorem insufficiency_feedback (o : Oracles) (p : RunParams) (s : LoopState)
    (sugg : CodeSuggestion) (out : String) (a : OutputAssessment)
    (hsug : o.getCodeS (genParamsOf p s) = .ok sugg)
    (hexec : o.execS s.iteration sugg.code
      (jsOrString sugg.language p.defaultLanguage) = .success out)
    (hreq : p.requireSufficientOutput = true)
    (hass : o.assessS s.iteration (assessParamsOf p out) = .ok a)
    (hinsuf : a.sufficient = false) :
    loopStep o p s = .nextIter ⟨s.iteration + 1,
      s.steps ++ [(⟨s.iteration, sugg, .success out, some a⟩ : EvalAgentStep)],
      some sugg, some (insufficiencyError a out)⟩ ∧
    strContains (insufficiencyError a out) (jsTrim a.rationale) ∧
    (∀ m ∈ a.missing, strContains (insufficiencyError a out) m) ∧
    (∀ c ∈ a.requested_changes, strContains (insufficiencyError a out) c) ∧
    strContains (insufficiencyError a out) (toLogSnippet out 2000) ∧
    ("seed" ∈ a.missing → strContains (insufficiencyError a out) "seed") := by
  have hmissing : ∀ m ∈ a.missing, strContains (insufficiencyError a out) m := by
    intro m hm
    unfold insufficiencyError
    apply strContains_appendLeft
    apply strContains_appendLeft
    apply strContains_appendLeft
    apply strContains_appendLeft
    apply strContains_appendLeft
    apply strContains_appendLeft
    exact strContains_appendRight _ _ _ (jsOr_joinSep_contains "; " "(none listed)" a.missing m hm)
  refine ⟨?_, ?_, hmissing, ?_, ?_, fun hseed => hmissing "seed" hseed⟩
  · unfold loopStep
    rw [hsug]
    dsimp only
    rw [hexec]
    dsimp only
    rw [if_pos hreq, hass]
    dsimp only
    rw [if_neg (by simp [hinsuf])]
  · unfold insufficiencyError
    apply strContains_appendLeft
    apply strContains_appendLeft
    apply strContains_appendLeft
    apply strContains_appendLeft
    apply strContains_appendLeft
    apply strContains_appendLeft
    apply strContains_appendLeft
    apply strContains_appendLeft
    apply strContains_appendLeft
    exact strContains_appendRight _ _ _ (jsOr_contains_self (jsTrim a.rationale) "(no rationale)")
  · intro c hc
    unfold insufficiencyError
    apply strContains_appendLeft
    apply strContains_appendLeft
    apply strContains_appendLeft
    exact strContains_appendRight _ _ _
      (jsOr_joinSep_contains "; " "(none listed)" a.requested_changes c hc)
  · unfold insufficiencyError
    exact strContains_appendRight _ _ _ (strContains_refl _)

/-- Witness for `insufficiency_feedback` at the concrete insufficient
iteration 0 of `c9Oracles`. -/
theorem insufficiency_feedback_witness :
    loopStep c9Oracles c9Params initState = .nextIter ⟨1,
      initState.steps ++ [(⟨0, wSugg, .success "O0", some c9Assess⟩ : EvalAgentStep)],
      some wSugg, some (insufficiencyError c9Assess "O0")⟩ ∧
    strContains (insufficiencyError c9Assess "O0") (jsTrim c9Assess.rationale) ∧
    (∀ m ∈ c9Assess.missing, strContains (insufficiencyError c9Assess "O0") m) ∧
    (∀ c ∈ c9Assess.requested_changes,
      strContains (insufficiencyError c9Assess "O0") c) ∧
    strContains (insufficiencyError c9Assess "O0") (toLogSnippet "O0" 2000) ∧
    ("seed" ∈ c9Assess.missing → strContains (insufficiencyError c9Assess "O0") "seed") :=
  insufficiency_feedback c9Oracles c9Params initState wSugg "O0" c9Assess
    (by decide) (by decide) (by decide) (by decide) (by decide)

/-- **C10** (judge model is independent of the run model): the
orchestrator builds every judge call's argument record via
`assessParamsOf`, which sets `model := none` (the call site omits it), so
the judge model always resolves from the `EVAL_JUDGE_MODEL` environment
variable or the hardcoded default — identically for any two runs whatever
their `model` parameters; the generation call, by contrast, receives the
run's `model` verbatim and resolves it with first priority. -/
theorem judge_model_independent_of_run_model :
    (∀ (p : RunParams) (out : String), (assessParamsOf p out).model = none) ∧
    (∀ (p : RunParams) (out : String) (envJudgeModel : Option String),
      resolveJudgeModel (assessParamsOf p out).model envJudgeModel =
        jsOrString envJudgeModel "gpt-5.2-2025-12-11") ∧
    (∀ (p1 p2 : RunParams) (out1 out2 : String) (envJudgeModel : Option String),
      resolveJudgeModel (assessParamsOf p1 out1).model envJudgeModel =
        resolveJudgeModel (assessParamsOf p2 out2).model envJudgeModel) ∧
    (∀ (p : RunParams) (s : LoopState), (genParamsOf p s).model = p.model) ∧
    (∀ (p : RunParams) (s : LoopState) (envEvalModel : Option String),
      resolveGenerationModel (genParamsOf p s).model envEvalModel =
        jsOrString p.model (jsOrString envEvalModel "gpt-5.2-2025-12-11")) :=
  ⟨fun _ _ => rfl, fun _ _ _ => rfl, fun _ _ _ _ _ => rfl,
   fun _ _ => rfl, fun _ _ _ => rfl⟩
